import Mathlib

/-!
Verification of the port-sampling data pipeline
(`Port_Sampling_Application.py`) against its natural-language
specification.  The pipeline's cell values, string operations and
dataframe transformations are shallowly embedded below; Python strings
are modelled as `List Char`, pandas cells as `PdValue` (NaN, None or a
string), fallible steps as `Except String`.
-/

namespace PortSampling

/-- A pandas cell value: `null` is NaN (e.g. a missing spreadsheet cell),
`pyNone` is the Python `None` object (e.g. a column filled by
`df[col] = None`), `s v` is a string value. -/
inductive PdValue where
  | null
  | pyNone
  | s (v : List Char)
deriving DecidableEq, Repr

/-- Python `str(x)` on a cell: `str(nan) = "nan"`, `str(None) = "None"`,
a string renders as itself. -/
def pyStrChars : PdValue → List Char
  | PdValue.null => "nan".toList
  | PdValue.pyNone => "None".toList
  | PdValue.s v => v

/-- Does the string `l` start with `p`? -/
def startsWith : List Char → List Char → Bool
  | _, [] => true
  | [], _ :: _ => false
  | a :: as, b :: bs => a = b && startsWith as bs

/-- Fuel-indexed worker for Python `str.split(sep)` (non-empty `sep`):
scan for `sep`, cut there, continue after it.  The fuel bounds the scan;
`pySplit` supplies enough fuel that it never runs out. -/
def pySplitGo (sep : List Char) : Nat → List Char → List Char → List (List Char)
  | _, [], acc => [acc.reverse]
  | 0, rest, acc => [acc.reverse ++ rest]
  | fuel + 1, c :: cs, acc =>
    if startsWith (c :: cs) sep then
      acc.reverse :: pySplitGo sep fuel ((c :: cs).drop sep.length) []
    else
      pySplitGo sep fuel cs (c :: acc)

/-- Python `s.split(sep)`: splits on every occurrence of `sep`, keeping
empty chunks; `"".split(sep) = [""]`. -/
def pySplit (sep str : List Char) : List (List Char) :=
  pySplitGo sep (str.length + 1) str []

/-- Python `sub in s` for a non-empty `sub`: the split produces at least
two chunks exactly when `sub` occurs in `s`. -/
def pyContains (sub str : List Char) : Bool :=
  2 ≤ (pySplit sub str).length

/-- Python-dict insertion into an association list: replace the value at
an existing key in place, otherwise append the pair (insertion order). -/
def dictInsert {κ β : Type} [DecidableEq κ] : List (κ × β) → κ → β → List (κ × β)
  | [], k, v => [(k, v)]
  | p :: ps, k, v => if p.1 = k then (k, v) :: ps else p :: dictInsert ps k v

/-- Python-dict lookup in an association list (first binding wins; the
insertion discipline keeps keys unique). -/
def dictGet {κ β : Type} [DecidableEq κ] (m : List (κ × β)) (k : κ) : Option β :=
  (m.find? (fun p => decide (p.1 = k))).map (fun p => p.2)

/-- Build a Python dict from a list of pairs: last value wins, position
of the first occurrence of a key is kept. -/
def dictOf {κ β : Type} [DecidableEq κ] (l : List (κ × β)) : List (κ × β) :=
  l.foldl (fun d p => dictInsert d p.1 p.2) []

/-- Map a fallible function over a list, stopping at the first error —
the behaviour of a raising function under `Series.apply`. -/
def mapE {α β ε : Type} (f : α → Except ε β) : List α → Except ε (List β)
  | [] => Except.ok []
  | a :: as =>
    match f a with
    | Except.error e => Except.error e
    | Except.ok b =>
      match mapE f as with
      | Except.error e => Except.error e
      | Except.ok bs => Except.ok (b :: bs)

/-- `dict(item.split('=') ...)` requires each split to be an exact pair;
a longer split (two or more `=` in the segment) raises `ValueError`. -/
def toPair (l : List (List Char)) : Except String (List Char × List Char) :=
  match l with
  | [k, v] => Except.ok (k, v)
  | _ => Except.error "ValueError"

/-- The `=`-pass of `extract_bag_info`:
`dict(item.split('=') for item in bag_id.split(',') if '=' in item)`.
Raises when some `=`-containing segment splits into more than two parts. -/
def eqPairs (bag_id : List Char) : Except String (List (List Char × List Char)) :=
  mapE (fun it => toPair (pySplit "=".toList it))
    ((pySplit ",".toList bag_id).filter (fun it => pyContains "=".toList it))

/-- The `": "`-pass of `extract_bag_info`:
`{item.split(': ')[0]: item.split(': ')[1] for item in bag_id.split(',') if ': ' in item}` —
key is chunk 0 and value chunk 1 of the full split, so anything after a
second `": "` is dropped. -/
def colonPairs (bag_id : List Char) : List (List Char × List Char) :=
  ((pySplit ",".toList bag_id).filter (fun it => pyContains ": ".toList it)).map
    (fun it => ((pySplit ": ".toList it).headD [], ((pySplit ": ".toList it).drop 1).headD []))

/-- `extract_bag_info` (source lines 32–35): build the `=`-pass dict,
then `update` it with the `": "`-pass pairs (which therefore overwrite). -/
def extract_bag_info (bag_id : List Char) : Except String (List (List Char × List Char)) :=
  match eqPairs bag_id with
  | Except.error e => Except.error e
  | Except.ok ps =>
    Except.ok ((colonPairs bag_id).foldl (fun d p => dictInsert d p.1 p.2) (dictOf ps))

/-- One enriched row: the raw `BAG ID.` cell, the parsed sub-fields the
row contributed to `bag_info_df`, and the derived
`"Bag Scanned & Manual"` value. -/
structure Enriched where
  bagId : PdValue
  fields : List (List Char × List Char)
  scannedId : PdValue
deriving DecidableEq, Repr

/-- Parsed fields a row contributes: `dropna()` skips NaN/None cells
(the row's extracted columns stay NaN, i.e. no bindings); a string cell
goes through `extract_bag_info`, whose exception fails the whole apply. -/
def rowFields : PdValue → Except String (List (List Char × List Char))
  | PdValue.s v => extract_bag_info v
  | _ => Except.ok []

/-- The `"Bag Scanned & Manual"` lambda (source line 46):
`row["Bag"] if len(str(row[bag_id_column])) > 20 else row[bag_id_column]`.
`row["Bag"]` is only evaluated in the long branch; it raises `KeyError`
unless some row's parse produced a `Bag` key (so the column exists), and
yields NaN when the column exists but this row has no `Bag` binding. -/
def scannedIdOfRow (bagColExists : Bool) (v : PdValue)
    (fields : List (List Char × List Char)) : Except String PdValue :=
  if 20 < (pyStrChars v).length then
    if bagColExists then
      Except.ok
        (match dictGet fields ("Bag".toList) with
         | some w => PdValue.s w
         | none => PdValue.null)
    else Except.error "KeyError"
  else Except.ok v

/-- The enrichment stage (source lines 39–48) on the `BAG ID.` column:
parse every non-null cell, concatenate the extracted columns, then
derive `"Bag Scanned & Manual"` for every row. -/
def enrich (rows : List PdValue) : Except String (List Enriched) :=
  match mapE rowFields rows with
  | Except.error e => Except.error e
  | Except.ok fs =>
    mapE
      (fun p =>
        (scannedIdOfRow (fs.any (fun m0 => (dictGet m0 ("Bag".toList)).isSome)) p.1 p.2).map
          (fun sid => Enriched.mk p.1 p.2 sid))
      (rows.zip fs)

/-- Is a cell missing data (NaN or None)?  `groupby` drops such keys. -/
def isNA : PdValue → Bool
  | PdValue.s _ => false
  | _ => true

/-- `combined_df.duplicated(subset=["Bag Scanned & Manual"], keep=False)`
filter (source line 59): keep the rows whose `ScannedId` occurs at least
twice in the column (pandas counts NaN keys as equal to each other). -/
def duplicates_df (sids : List PdValue) : List PdValue :=
  sids.filter (fun v => 2 ≤ (sids.filter (fun w => w = v)).length)

/-- The group keys of the duplicate view: `groupby` drops NA keys, so
there is one key (hence one summary row) per distinct non-NA
`ScannedId` of `duplicates_df`. -/
def dupKeys (sids : List PdValue) : List PdValue :=
  ((duplicates_df sids).filter (fun v => !(isNA v))).dedup

/-- The duplicate view (source lines 59–68), modelled by its group keys
(one key per emitted summary row).  The `groupby.apply` lambda reads
`group["Seal"]` (line 65) and `group["Lot"]` (line 66); those columns
exist only when some row's parse produced such a key, so when at least
one duplicate group exists and either column is absent the lambda
raises `KeyError` and the run aborts.  With zero groups the lambda
never runs and the view is empty. -/
def grouped_duplicates (sealExists lotExists : Bool) (sids : List PdValue) :
    Except String (List PdValue) :=
  if (dupKeys sids).isEmpty then Except.ok []
  else if sealExists && lotExists then Except.ok (dupKeys sids)
  else Except.error "KeyError"

/-- `Series.str.len().between(16, 25)` on one cell: inclusive bounds,
false on non-string cells (the `.str` accessor yields NaN there). -/
def lengthBand : PdValue → Bool
  | PdValue.s v => decide (16 ≤ v.length) && decide (v.length ≤ 25)
  | _ => false

/-- The length-band exception view (source line 74): rows whose raw
`BAG ID.` string length lies between 16 and 25, all columns kept.  A
row is a `BAG ID.` cell paired with the rest of its columns `α`. -/
def length_exception_df {α : Type} (rows : List (PdValue × α)) : List (PdValue × α) :=
  rows.filter (fun r => lengthBand r.1)

/-- `Added Time >= start & Added Time <= end` on one cell: comparisons
against NaT are false. -/
def inRange (startT endT : Int) : Option Int → Bool
  | some t => decide (startT ≤ t) && decide (t ≤ endT)
  | none => false

/-- The range filter (source lines 94–95): keep rows whose `Added Time`
is within the inclusive `[start, end]` interval.  A row is its
`Added Time` cell (NaT as `none`) paired with its other columns `α`. -/
def combined_df_for_download {α : Type} (rows : List (Option Int × α))
    (startT endT : Int) : List (Option Int × α) :=
  rows.filter (fun r => inRange startT endT r.1)

/-- The fixed export column mapping (source lines 98–103), in dict
order: `SAMPLING TIME` is mapped last. -/
def column_mappings : List (String × String) :=
  [("Bag Scanned & Manual", "name"),
   ("AHK SEAL NO.", "PRN_AHK_SEAL"),
   ("WAREHOUSE PLATFORM SCALE GROSS WEIGHT (KG)", "PRN_WH_GROSS_WEIGHT"),
   ("SAMPLING TIME", "BAG_AHK_LP_SAMPLING_TS")]

/-- The suffix loop (source lines 115–117): if `BAG_AHK_LP_SAMPLING_TS`
already exists among the mapped columns, replace it by its values
rendered as text with `"+02:00"` appended. -/
def suffixPass (mapped : List (String × List PdValue)) : List (String × List PdValue) :=
  match dictGet mapped "BAG_AHK_LP_SAMPLING_TS" with
  | some vals =>
    dictInsert mapped "BAG_AHK_LP_SAMPLING_TS"
      (vals.map (fun v => PdValue.s (pyStrChars v ++ "+02:00".toList)))
  | none => mapped

/-- One iteration of the mapping loop (source lines 107–117): copy the
source column when present, else fill the mapped column with `None`;
then the suffix loop (line 115, indented at the same level as the
`if`/`else`, inside the mapping loop) runs at the end of every
iteration.  `src` is the filtered table as named columns; `nrows` its
row count. -/
def mapStep (src : List (String × List PdValue)) (nrows : Nat)
    (mapped : List (String × List PdValue)) (mp : String × String) :
    List (String × List PdValue) :=
  suffixPass
    (match dictGet src mp.1 with
     | some vals => dictInsert mapped mp.2 vals
     | none => dictInsert mapped mp.2 (List.replicate nrows PdValue.pyNone))

/-- The export mapper (source lines 106–117): fold the mapping loop
over `column_mappings`, starting from an empty frame. -/
def mapped_df_for_download (src : List (String × List PdValue)) (nrows : Nat) :
    List (String × List PdValue) :=
  column_mappings.foldl (mapStep src nrows) []

/-! ### Helper lemmas on the dict and traversal combinators -/

theorem dictGet_cons {κ β : Type} [DecidableEq κ] (p : κ × β) (ps : List (κ × β)) (k : κ) :
    dictGet (p :: ps) k = if p.1 = k then some p.2 else dictGet ps k := by
  by_cases h : p.1 = k <;> simp [dictGet, List.find?, h]

theorem dictGet_dictInsert {κ β : Type} [DecidableEq κ] (m : List (κ × β)) (k k' : κ) (v : β) :
    dictGet (dictInsert m k' v) k = if k = k' then some v else dictGet m k := by
  induction m with
  | nil =>
    by_cases h : k = k'
    · subst h; simp [dictInsert, dictGet_cons]
    · rw [if_neg h]
      have h' : k' ≠ k := fun hh => h hh.symm
      simp [dictInsert, dictGet_cons, h', dictGet]
  | cons p ps ih =>
    by_cases hp : p.1 = k'
    · by_cases h : k = k'
      · subst h; simp [dictInsert, hp, dictGet_cons]
      · have hpk : p.1 ≠ k := by rw [hp]; exact fun hh => h hh.symm
        have h' : k' ≠ k := fun hh => h hh.symm
        simp [dictInsert, hp, dictGet_cons, h, h', hpk]
    · by_cases hpk : p.1 = k
      · have h : k ≠ k' := by rw [← hpk]; exact hp
        simp [dictInsert, hp, dictGet_cons, hpk, h]
      · simp [dictInsert, hp, dictGet_cons, hpk, ih]

theorem dictGet_foldl_insert {κ β : Type} [DecidableEq κ] (l : List (κ × β)) (k : κ) :
    ∀ m : List (κ × β),
      dictGet (l.foldl (fun d p => dictInsert d p.1 p.2) m) k
        = (dictGet (l.foldl (fun d p => dictInsert d p.1 p.2) []) k).elim (dictGet m k) some := by
  induction l with
  | nil => intro m; simp [dictGet, Option.elim]
  | cons p t ih =>
    intro m
    simp only [List.foldl_cons]
    rw [ih (dictInsert m p.1 p.2), ih (dictInsert [] p.1 p.2)]
    cases h : dictGet (t.foldl (fun d p => dictInsert d p.1 p.2) []) k with
    | some v => simp [Option.elim]
    | none =>
      simp only [Option.elim]
      rw [dictGet_dictInsert, dictGet_dictInsert]
      by_cases hk : k = p.1 <;> simp [hk, Option.elim, dictGet]

theorem mapE_ok_mem {α β ε : Type} {f : α → Except ε β} :
    ∀ {l : List α} {out : List β}, mapE f l = Except.ok out →
      ∀ {b : β}, b ∈ out → ∃ a, a ∈ l ∧ f a = Except.ok b := by
  intro l
  induction l with
  | nil =>
    intro out h b hb
    simp only [mapE] at h
    injection h with h
    subst h
    exact absurd hb (by simp)
  | cons a as ih =>
    intro out h b hb
    simp only [mapE] at h
    cases hfa : f a with
    | error e => rw [hfa] at h; exact absurd h (by simp)
    | ok b0 =>
      rw [hfa] at h
      cases hrest : mapE f as with
      | error e => rw [hrest] at h; exact absurd h (by simp)
      | ok bs =>
        rw [hrest] at h
        injection h with h
        subst h
        rcases List.mem_cons.mp hb with hb0 | hbs
        · subst hb0; exact ⟨a, List.mem_cons_self a as, hfa⟩
        · obtain ⟨a', ha', hfa'⟩ := ih hrest hbs
          exact ⟨a', List.mem_cons_of_mem a ha', hfa'⟩

theorem mapE_zip_ok {α β ε : Type} {f : α → Except ε β} :
    ∀ {l : List α} {out : List β}, mapE f l = Except.ok out →
      ∀ p ∈ l.zip out, f p.1 = Except.ok p.2 := by
  intro l
  induction l with
  | nil => intro out h p hp; exact absurd hp (by simp)
  | cons a as ih =>
    intro out h p hp
    simp only [mapE] at h
    cases hfa : f a with
    | error e => rw [hfa] at h; exact absurd h (by simp)
    | ok b0 =>
      rw [hfa] at h
      cases hrest : mapE f as with
      | error e => rw [hrest] at h; exact absurd h (by simp)
      | ok bs =>
        rw [hrest] at h
        injection h with h
        subst h
        rcases List.mem_cons.mp hp with hp0 | hps
        · subst hp0; exact hfa
        · exact ih hrest p hps

theorem mapE_ok_of_all {α β ε : Type} {f : α → Except ε β} :
    ∀ (l : List α), (∀ a ∈ l, ∃ b, f a = Except.ok b) →
      ∃ out, mapE f l = Except.ok out := by
  intro l
  induction l with
  | nil => intro _; exact ⟨[], rfl⟩
  | cons a as ih =>
    intro h
    obtain ⟨b, hb⟩ := h a (List.mem_cons_self a as)
    obtain ⟨out, hout⟩ := ih (fun x hx => h x (List.mem_cons_of_mem a hx))
    exact ⟨b :: out, by simp only [mapE]; rw [hb, hout]⟩

/-- Every row of a successful enrichment carries the parsed fields of
its own `BAG ID.` cell, and its `ScannedId` was produced by the
length-dispatch lambda under some value of the `Bag`-column-exists
flag. -/
theorem enrich_mem_elim {rows : List PdValue} {out : List Enriched}
    (hok : enrich rows = Except.ok out) {e : Enriched} (he : e ∈ out) :
    rowFields e.bagId = Except.ok e.fields ∧
    ∃ bex : Bool, scannedIdOfRow bex e.bagId e.fields = Except.ok e.scannedId := by
  unfold enrich at hok
  cases hfs : mapE rowFields rows with
  | error e0 => rw [hfs] at hok; exact absurd hok (by simp)
  | ok fs =>
    rw [hfs] at hok
    obtain ⟨p, hp, hfp⟩ := mapE_ok_mem hok he
    cases hsid : scannedIdOfRow
        (fs.any (fun m0 => (dictGet m0 ("Bag".toList)).isSome)) p.1 p.2 with
    | error e1 => rw [hsid] at hfp; exact absurd hfp (by simp [Except.map])
    | ok sid =>
      rw [hsid] at hfp
      simp only [Except.map] at hfp
      injection hfp with hfp
      subst hfp
      refine ⟨?_, ⟨_, hsid⟩⟩
      exact mapE_zip_ok hfs p hp

/-- Case analysis of the length-dispatch lambda when it returns. -/
theorem scannedIdOfRow_cases (bex : Bool) (v : PdValue)
    (fields : List (List Char × List Char)) (sid : PdValue)
    (h : scannedIdOfRow bex v fields = Except.ok sid) :
    (20 < (pyStrChars v).length ∧ bex = true ∧
      sid = (match dictGet fields ("Bag".toList) with
             | some w => PdValue.s w
             | none => PdValue.null))
    ∨ ((pyStrChars v).length ≤ 20 ∧ sid = v) := by
  unfold scannedIdOfRow at h
  by_cases hl : 20 < (pyStrChars v).length
  · rw [if_pos hl] at h
    cases bex with
    | false => exact absurd h (by simp)
    | true =>
      injection h with h
      exact Or.inl ⟨hl, rfl, h.symm⟩
  · rw [if_neg hl] at h
    injection h with h
    exact Or.inr ⟨Nat.le_of_not_lt hl, h.symm⟩

/-! ### Claim theorems -/

/-- C2: for every row of a successful enrichment whose raw `BAG ID.` is
a string, the `"Bag Scanned & Manual"` value is the parsed `Bag`
sub-field when the raw `BAG ID.` is longer than 20 characters, and the
raw `BAG ID.` value itself otherwise. -/
theorem scannedId_length_rule (rows : List PdValue) (out : List Enriched)
    (hok : enrich rows = Except.ok out) (e : Enriched) (he : e ∈ out)
    (v : List Char) (hb : e.bagId = PdValue.s v) :
    (∀ w, 20 < v.length → dictGet e.fields ("Bag".toList) = some w →
        e.scannedId = PdValue.s w)
    ∧ (v.length ≤ 20 → e.scannedId = PdValue.s v) := by
  obtain ⟨-, bex, hsid⟩ := enrich_mem_elim hok he
  rw [hb] at hsid
  rcases scannedIdOfRow_cases bex _ _ _ hsid with ⟨hl, -, hval⟩ | ⟨hl, hval⟩
  · constructor
    · intro w _ hget
      rw [hval, hget]
    · intro hle
      exact absurd hl (by simpa [pyStrChars] using Nat.not_lt.mpr hle)
  · constructor
    · intro w hlt _
      exact absurd hlt (by simpa [pyStrChars] using Nat.not_lt.mpr hl)
    · intro _
      exact hval

/-- Witness for C2: the single-row table with
`BAG ID. = "Bag=B1,0123456789012345"` (23 characters) enriches to
`ScannedId = "B1"`, the parsed `Bag` sub-field. -/
theorem scannedId_length_rule_witness :
    (Enriched.mk (PdValue.s "Bag=B1,0123456789012345".toList)
        [("Bag".toList, "B1".toList)] (PdValue.s "B1".toList)).scannedId
      = PdValue.s "B1".toList :=
  (scannedId_length_rule [PdValue.s "Bag=B1,0123456789012345".toList]
      [Enriched.mk (PdValue.s "Bag=B1,0123456789012345".toList)
        [("Bag".toList, "B1".toList)] (PdValue.s "B1".toList)]
      rfl _ (List.Mem.head _) _ rfl).1
    "B1".toList (by decide) rfl

/-- C3 counterexample: a table whose only row has a 25-character
`BAG ID.` with no parseable sub-fields at all.  No row yields a `Bag`
key, so the `Bag` column does not exist, `row["Bag"]` raises `KeyError`
and the whole run aborts — the row does not get a null `ScannedId`. -/
theorem enrich_keyerror_no_bag_column :
    enrich [PdValue.s (List.replicate 25 'a')] = Except.error "KeyError" := rfl

/-- C3 (amended): when the enrichment completes (which requires the
`Bag` column to exist, i.e. some row parsed a `Bag` sub-field), a row
with a string `BAG ID.` longer than 20 characters and no `Bag`
sub-field of its own gets a null `ScannedId` without failing. -/
theorem scannedId_null_when_bag_absent (rows : List PdValue) (out : List Enriched)
    (hok : enrich rows = Except.ok out) (e : Enriched) (he : e ∈ out)
    (v : List Char) (hb : e.bagId = PdValue.s v) (hlen : 20 < v.length)
    (hnone : dictGet e.fields ("Bag".toList) = none) :
    e.scannedId = PdValue.null := by
  obtain ⟨-, bex, hsid⟩ := enrich_mem_elim hok he
  rw [hb] at hsid
  rcases scannedIdOfRow_cases bex _ _ _ hsid with ⟨-, -, hval⟩ | ⟨hl, -⟩
  · rw [hval, hnone]
  · exact absurd hlen (by simpa [pyStrChars] using Nat.not_lt.mpr hl)

/-- Witness for C3 (amended): next to a row whose parse yields a `Bag`
key, the 25-character unparseable row gets `ScannedId = null`. -/
theorem scannedId_null_when_bag_absent_witness :
    (Enriched.mk (PdValue.s (List.replicate 25 'a')) [] PdValue.null).scannedId
      = PdValue.null :=
  scannedId_null_when_bag_absent
    [PdValue.s "Bag=B1".toList, PdValue.s (List.replicate 25 'a')]
    [Enriched.mk (PdValue.s "Bag=B1".toList) [("Bag".toList, "B1".toList)]
        (PdValue.s "Bag=B1".toList),
     Enriched.mk (PdValue.s (List.replicate 25 'a')) [] PdValue.null]
    rfl _ (List.Mem.tail _ (List.Mem.head _)) _ rfl (by decide) rfl

/-- C10: a null (NaN) `BAG ID.` cell never disturbs the pipeline:
`dropna()` skips it (no parsed fields), `str(nan) = "nan"` has length 3,
so the length test always takes the short branch and the row's
`ScannedId` is the null `BAG ID.` value itself. -/
theorem null_bagid_short_branch :
    (rowFields PdValue.null = Except.ok [])
    ∧ (pyStrChars PdValue.null = "nan".toList)
    ∧ ((pyStrChars PdValue.null).length = 3)
    ∧ (∀ (bex : Bool) (fields : List (List Char × List Char)),
        scannedIdOfRow bex PdValue.null fields = Except.ok PdValue.null)
    ∧ (∀ (rows : List PdValue) (out : List Enriched) (e : Enriched),
        enrich rows = Except.ok out → e ∈ out → e.bagId = PdValue.null →
        e.fields = [] ∧ e.scannedId = PdValue.null) := by
  refine ⟨rfl, rfl, rfl, fun bex fields => by simp [scannedIdOfRow, pyStrChars], ?_⟩
  intro rows out e hok he hb
  obtain ⟨hf, bex, hsid⟩ := enrich_mem_elim hok he
  rw [hb] at hf hsid
  have hfields : e.fields = [] := by
    simp only [rowFields] at hf
    injection hf with hf
    exact hf.symm
  refine ⟨hfields, ?_⟩
  rcases scannedIdOfRow_cases bex _ _ _ hsid with ⟨hl, -, -⟩ | ⟨-, hval⟩
  · exact absurd hl (by simp [pyStrChars])
  · exact hval

/-- Witness for C10: enriching the one-row table whose `BAG ID.` is NaN
completes with no fields and a null `ScannedId`. -/
theorem null_bagid_short_branch_witness :
    (Enriched.mk PdValue.null [] PdValue.null).fields = []
    ∧ (Enriched.mk PdValue.null [] PdValue.null).scannedId = PdValue.null :=
  null_bagid_short_branch.2.2.2.2 [PdValue.null]
    [Enriched.mk PdValue.null [] PdValue.null] _ rfl (List.Mem.head _) rfl

/-- C4 counterexample: parsing `"k1=v1, Label: Value"` does not yield
`{"k1": "v1", "Label": "Value"}` — segments are never trimmed, so the
colon-derived key is `" Label"` (leading space) and the key `"Label"`
is absent from the result. -/
theorem extract_keeps_segment_whitespace :
    extract_bag_info "k1=v1, Label: Value".toList
      = Except.ok [("k1".toList, "v1".toList), (" Label".toList, "Value".toList)]
    ∧ dictGet [("k1".toList, "v1".toList), (" Label".toList, "Value".toList)]
        "Label".toList = none :=
  ⟨rfl, rfl⟩

/-- C4 (amended): parsing `"k1=v1, Label: Value"` yields exactly
`{"k1": "v1", " Label": "Value"}`: comma-separated segments are used
untrimmed, so keys keep their surrounding whitespace. -/
theorem extract_untrimmed_example :
    extract_bag_info "k1=v1, Label: Value".toList
      = Except.ok [("k1".toList, "v1".toList), (" Label".toList, "Value".toList)] := rfl

/-- C5 counterexample: the parser is not total and does not keep the
remainder after the first delimiter.  On `"a=b=c"` the `=`-split has
three chunks and `dict(...)` raises `ValueError` (so key `"a"` with
value `"b=c"` is never produced), and on `"x: y: z"` the value is only
`"y"`, the text after the second `": "` being dropped. -/
theorem extract_raises_on_double_eq :
    extract_bag_info "a=b=c".toList = Except.error "ValueError"
    ∧ extract_bag_info "x: y: z".toList = Except.ok [("x".toList, "y".toList)] :=
  ⟨rfl, rfl⟩

/-- C5 (amended): the parser returns a mapping without raising for
every `BAG ID.` string whose `=`-containing comma-segments each split
into exactly two chunks (i.e. contain a single `=`); a segment with two
or more `=` raises `ValueError` and fails the whole run. -/
theorem extract_ok_of_single_eq (bag_id : List Char)
    (h : ∀ it ∈ (pySplit ",".toList bag_id).filter (fun it => pyContains "=".toList it),
        (pySplit "=".toList it).length = 2) :
    ∃ m, extract_bag_info bag_id = Except.ok m := by
  have hpairs : ∃ ps, eqPairs bag_id = Except.ok ps := by
    apply mapE_ok_of_all
    intro it hit
    have h2 := h it hit
    cases hsplit : pySplit "=".toList it with
    | nil => rw [hsplit] at h2; exact absurd h2 (by simp)
    | cons x xs =>
      cases xs with
      | nil => rw [hsplit] at h2; exact absurd h2 (by simp)
      | cons y ys =>
        cases ys with
        | nil => exact ⟨(x, y), rfl⟩
        | cons z zs => rw [hsplit] at h2; exact absurd h2 (by simp)
  obtain ⟨ps, hps⟩ := hpairs
  exact ⟨_, by unfold extract_bag_info; rw [hps]⟩

/-- Witness for C5 (amended): `"a=b, c: d"` has a single-`=` segment
and parses successfully. -/
theorem extract_ok_of_single_eq_witness :
    ∃ m, extract_bag_info "a=b, c: d".toList = Except.ok m :=
  extract_ok_of_single_eq "a=b, c: d".toList (by decide)

/-- C6: the `": "` pass runs after the `=` pass and overwrites it —
whenever the `=`-derived dict and the `": "`-derived dict of a
`BAG ID.` share a key, the final mapping holds the `": "` value. -/
theorem colon_pass_overwrites (bag_id : List Char)
    (m ps : List (List Char × List Char)) (k v1 v2 : List Char)
    (hps : eqPairs bag_id = Except.ok ps)
    (_h1 : dictGet (dictOf ps) k = some v1)
    (h2 : dictGet (dictOf (colonPairs bag_id)) k = some v2)
    (hok : extract_bag_info bag_id = Except.ok m) :
    dictGet m k = some v2 := by
  unfold extract_bag_info at hok
  rw [hps] at hok
  injection hok with hok
  rw [← hok, dictGet_foldl_insert]
  have h2' : dictGet ((colonPairs bag_id).foldl (fun d p => dictInsert d p.1 p.2) []) k
      = some v2 := h2
  rw [h2']
  rfl

/-- Witness for C6: in `"a=1,a: 2"` the key `"a"` gets `=`-value `"1"`
and `": "`-value `"2"`; the final mapping holds `"2"`. -/
theorem colon_pass_overwrites_witness :
    dictGet [("a".toList, "2".toList)] "a".toList = some "2".toList :=
  colon_pass_overwrites "a=1,a: 2".toList
    [("a".toList, "2".toList)] [("a".toList, "1".toList)]
    "a".toList "1".toList "2".toList rfl rfl rfl rfl

/-- C7 counterexample: null is not a group key, and emission is not
unconditional.  Two rows with a null `ScannedId` are marked by
`duplicated(keep=False)`, but `groupby` drops the NA key and the view
is empty; and two rows with `ScannedId = "ABC"` (no parsed sub-fields,
so no `Seal`/`Lot` columns) form a duplicate group whose summary
lambda raises `KeyError`, aborting the run with no view at all. -/
theorem grouped_duplicates_drops_null :
    grouped_duplicates false false [PdValue.null, PdValue.null] = Except.ok []
    ∧ grouped_duplicates false false
        [PdValue.s "ABC".toList, PdValue.s "ABC".toList] = Except.error "KeyError" :=
  ⟨rfl, rfl⟩

/-- C7 (amended): whenever the duplicate view is actually produced
(the run instead aborts with `KeyError` when a duplicate group exists
but the `Seal` or `Lot` column is absent), its summary rows are
exactly one per non-NA `ScannedId` occurring on at least two rows;
values occurring once, and NA values (null included), yield none. -/
theorem grouped_duplicates_view (sealExists lotExists : Bool)
    (sids keys : List PdValue)
    (hok : grouped_duplicates sealExists lotExists sids = Except.ok keys) :
    keys.Nodup
    ∧ ∀ v : PdValue, v ∈ keys ↔
        (isNA v = false ∧ 2 ≤ (sids.filter (fun w => w = v)).length) := by
  have hkeys : keys = dupKeys sids := by
    unfold grouped_duplicates at hok
    by_cases he : (dupKeys sids).isEmpty = true
    · rw [if_pos he] at hok
      injection hok with h
      rw [← h, List.isEmpty_iff.mp he]
    · rw [if_neg he] at hok
      by_cases hse : (sealExists && lotExists) = true
      · rw [if_pos hse] at hok
        injection hok with h
        exact h.symm
      · rw [if_neg hse] at hok
        exact absurd hok (by simp)
  subst hkeys
  constructor
  · exact List.nodup_dedup _
  · intro v
    simp only [dupKeys, duplicates_df, List.mem_dedup, List.mem_filter,
      Bool.not_eq_true', decide_eq_true_eq]
    constructor
    · rintro ⟨⟨-, hc⟩, hna⟩
      exact ⟨hna, hc⟩
    · rintro ⟨hna, hc⟩
      have hpos : 0 < (sids.filter (fun w => decide (w = v))).length :=
        Nat.lt_of_lt_of_le Nat.zero_lt_two hc
      obtain ⟨x, hxmem⟩ := List.exists_mem_of_length_pos hpos
      obtain ⟨hxs, hxv⟩ := List.mem_filter.mp hxmem
      have hv : v ∈ sids := by
        have hxe : x = v := of_decide_eq_true hxv
        rwa [← hxe]
      exact ⟨⟨hv, hc⟩, hna⟩

/-- Witness for C7 (amended): rows with `ScannedId` "A","A","B" and
the `Seal` and `Lot` columns present produce exactly the group "A". -/
theorem grouped_duplicates_view_witness :
    PdValue.s "A".toList ∈ ([PdValue.s "A".toList] : List PdValue) ↔
      (isNA (PdValue.s "A".toList) = false
       ∧ 2 ≤ (([PdValue.s "A".toList, PdValue.s "A".toList,
            PdValue.s "B".toList].filter
          (fun w => w = PdValue.s "A".toList)).length)) :=
  (grouped_duplicates_view true true
      [PdValue.s "A".toList, PdValue.s "A".toList, PdValue.s "B".toList]
      [PdValue.s "A".toList] rfl).2 (PdValue.s "A".toList)

/-- C8: the length-anomaly view holds exactly the rows whose raw
`BAG ID.` is a string of length between 16 and 25 inclusive, every
column of the row preserved; lengths 15 and 26 fall outside the band,
16 and 25 inside. -/
theorem length_exception_membership {α : Type} (rows : List (PdValue × α))
    (r : PdValue × α) :
    (r ∈ length_exception_df rows ↔
      r ∈ rows ∧ ∃ v : List Char, r.1 = PdValue.s v ∧ 16 ≤ v.length ∧ v.length ≤ 25)
    ∧ lengthBand (PdValue.s (List.replicate 15 'a')) = false
    ∧ lengthBand (PdValue.s (List.replicate 16 'a')) = true
    ∧ lengthBand (PdValue.s (List.replicate 25 'a')) = true
    ∧ lengthBand (PdValue.s (List.replicate 26 'a')) = false := by
  refine ⟨?_, by decide, by decide, by decide, by decide⟩
  simp only [length_exception_df, List.mem_filter]
  constructor
  · rintro ⟨hr, hband⟩
    refine ⟨hr, ?_⟩
    cases h1 : r.1 with
    | null => rw [h1] at hband; exact absurd hband (by simp [lengthBand])
    | pyNone => rw [h1] at hband; exact absurd hband (by simp [lengthBand])
    | s v =>
      rw [h1] at hband
      simp only [lengthBand, Bool.and_eq_true, decide_eq_true_eq] at hband
      exact ⟨v, rfl, hband.1, hband.2⟩
  · rintro ⟨hr, v, hv, h16, h25⟩
    refine ⟨hr, ?_⟩
    rw [hv]
    simp [lengthBand, h16, h25]

/-- C9: the range filter keeps exactly the rows whose `Added Time` is a
non-null timestamp inside the inclusive `[start, end]` interval (null
`Added Time` compares false and is dropped), and an inverted interval
yields the empty result rather than an error. -/
theorem range_filter_membership {α : Type} (rows : List (Option Int × α))
    (startT endT : Int) :
    (∀ r, r ∈ combined_df_for_download rows startT endT ↔
        (r ∈ rows ∧ ∃ t : Int, r.1 = some t ∧ startT ≤ t ∧ t ≤ endT))
    ∧ (endT < startT → combined_df_for_download rows startT endT = []) := by
  have hmem : ∀ r, r ∈ combined_df_for_download rows startT endT ↔
      (r ∈ rows ∧ ∃ t : Int, r.1 = some t ∧ startT ≤ t ∧ t ≤ endT) := by
    intro r
    simp only [combined_df_for_download, List.mem_filter]
    constructor
    · rintro ⟨hr, hin⟩
      refine ⟨hr, ?_⟩
      cases h1 : r.1 with
      | none => rw [h1] at hin; exact absurd hin (by simp [inRange])
      | some t =>
        rw [h1] at hin
        simp only [inRange, Bool.and_eq_true, decide_eq_true_eq] at hin
        exact ⟨t, rfl, hin.1, hin.2⟩
    · rintro ⟨hr, t, ht, h1, h2⟩
      refine ⟨hr, ?_⟩
      rw [ht]
      simp [inRange, h1, h2]
  refine ⟨hmem, ?_⟩
  intro hlt
  cases hres : combined_df_for_download rows startT endT with
  | nil => rfl
  | cons a l =>
    exfalso
    have ha : a ∈ combined_df_for_download rows startT endT := by
      rw [hres]; exact List.Mem.head _
    obtain ⟨-, t, -, h1, h2⟩ := (hmem a).mp ha
    exact absurd (le_trans h1 h2) (not_le.mpr hlt)

/-- Witness for C9: with bounds `start = 3 > end = 1` the filter of a
one-row table is empty. -/
theorem range_filter_membership_witness :
    combined_df_for_download [((some 5 : Option Int), (0 : Nat))] 3 1 = [] :=
  (range_filter_membership [((some 5 : Option Int), (0 : Nat))] 3 1).2 (by decide)

/-- A filtered table in which all four export source columns are
present, with one row whose `SAMPLING TIME` is the text
`"2024-01-01 08:00:00"`. -/
def srcAllPresent : List (String × List PdValue) :=
  [("Bag Scanned & Manual", [PdValue.s "B1".toList]),
   ("AHK SEAL NO.", [PdValue.s "S1".toList]),
   ("WAREHOUSE PLATFORM SCALE GROSS WEIGHT (KG)", [PdValue.s "100".toList]),
   ("SAMPLING TIME", [PdValue.s "2024-01-01 08:00:00".toList])]

/-- The last iteration of the mapping loop creates the
`BAG_AHK_LP_SAMPLING_TS` column (from `SAMPLING TIME`, or filled with
`None`) and then the suffix loop stringifies it and appends
`"+02:00"`, whatever the accumulated frame held before. -/
theorem dictGet_mapStep_sampling (src : List (String × List PdValue)) (nrows : Nat)
    (mapped : List (String × List PdValue)) :
    dictGet (mapStep src nrows mapped ("SAMPLING TIME", "BAG_AHK_LP_SAMPLING_TS"))
        "BAG_AHK_LP_SAMPLING_TS"
      = some (((dictGet src "SAMPLING TIME").getD (List.replicate nrows PdValue.pyNone)).map
          (fun v => PdValue.s (pyStrChars v ++ "+02:00".toList))) := by
  cases h : dictGet src "SAMPLING TIME" with
  | none => simp [mapStep, suffixPass, dictGet_dictInsert, h]
  | some vals => simp [mapStep, suffixPass, dictGet_dictInsert, h]

/-- C1: in the mapped export table, the `BAG_AHK_LP_SAMPLING_TS`
column is always exactly the `SAMPLING TIME` values (a `None` column
when that source column is missing) converted to text with `"+02:00"`
appended exactly once to every value: the suffix loop runs at the end
of every mapping iteration, and the column exists only from the last
iteration on, so it is suffixed once.  Concretely, with all source
columns present the value ends in `"+02:00"`, and with `SAMPLING TIME`
missing the column holds the literal text `"None+02:00"`. -/
theorem sampling_ts_suffix_always (src : List (String × List PdValue)) (nrows : Nat) :
    (dictGet (mapped_df_for_download src nrows) "BAG_AHK_LP_SAMPLING_TS"
      = some (((dictGet src "SAMPLING TIME").getD (List.replicate nrows PdValue.pyNone)).map
          (fun v => PdValue.s (pyStrChars v ++ "+02:00".toList))))
    ∧ dictGet (mapped_df_for_download srcAllPresent 1) "BAG_AHK_LP_SAMPLING_TS"
      = some [PdValue.s "2024-01-01 08:00:00+02:00".toList]
    ∧ dictGet (mapped_df_for_download (srcAllPresent.take 3) 1) "BAG_AHK_LP_SAMPLING_TS"
      = some [PdValue.s "None+02:00".toList] := by
  refine ⟨?_, rfl, rfl⟩
  simp only [mapped_df_for_download, column_mappings, List.foldl_cons, List.foldl_nil]
  exact dictGet_mapStep_sampling src nrows _

end PortSampling
